import Mathlib

/-!
Shallow embedding of the audio streaming pipeline of the repository
(src/main.rs, src/filter.rs, src/audio/consumer.rs).

Samples (Rust f32) are modelled as rationals: every claim under study is
structural (copies, zero fills, sums of scaled filter outputs), so exact
arithmetic is the faithful reading of the floating point code.  Stateful
code is modelled by explicit state passing; the std mpsc channels are
modelled by their pending-message FIFO lists.
-/

set_option autoImplicit false

namespace AudioRaycast

/-- Pipeline constant INTERPOLATION_STEPS (src/main.rs line 17). -/
def INTERPOLATION_STEPS : ℕ := 8

/-- Pipeline constant BLOCK_LEN (src/main.rs line 18). -/
def BLOCK_LEN : ℕ := 128

/-- Pipeline constant CHUNK = INTERPOLATION_STEPS * BLOCK_LEN (src/main.rs line 19). -/
def CHUNK : ℕ := INTERPOLATION_STEPS * BLOCK_LEN

/-! ## std::sync::mpsc channel model

A channel is its list of pending messages, oldest first.  `mpsc::channel()`
(src/main.rs lines 72 and 73) creates an unbounded FIFO: `send` appends and
always succeeds while the receiver is alive; `try_recv` pops the oldest
pending message and fails only when none is pending; blocking `recv` returns
the same oldest message when one is pending and otherwise blocks (modelled as
`none`: no step is possible until a producer sends). -/

/-- Sender::send on a connected unbounded mpsc channel: appends the message,
never blocks, never drops (src/main.rs line 186 for the handoff queue). -/
def mpscSend {α : Type} (q : List α) (msg : α) : List α := q ++ [msg]

/-- Receiver::try_recv: pops the oldest pending message, or fails when the
queue is empty (src/main.rs line 100). -/
def mpscTryRecv {α : Type} (q : List α) : Option (α × List α) :=
  match q with
  | [] => none
  | msg :: rest => some (msg, rest)

/-- Orientation intake of the render worker (src/main.rs lines 161 to 165): a
blocking `recv` on the position channel.  When updates are pending it returns
the OLDEST one together with the still-queued remainder (updates accumulate in
FIFO order); when none is pending it returns `none`, meaning the worker stays
blocked inside `recv` and cannot proceed to produce the chunk. -/
def orientationRecv (pending : List (ℚ × ℚ × ℚ)) :
    Option ((ℚ × ℚ × ℚ) × List (ℚ × ℚ × ℚ)) :=
  mpscTryRecv pending

/-! ## Hardware output callback (src/main.rs lines 91 to 115)

The callback owns a leftover carry buffer and drains the handoff queue.  We
model one invocation as a function of the current leftover buffer, the
pending handoff queue and the requested output length `n`, returning the
produced output samples, the new leftover buffer and the remaining queue. -/

/-- Loop of src/main.rs lines 99 to 114: while positions remain, try_recv a
chunk; copy as much as fits; stash the remainder of a partially fitting chunk
into the leftover buffer; on an empty queue fill the rest with zeros and stop.
Arguments: pending queue, leftover buffer, number of unfilled positions. -/
def fillLoop : List (List ℚ) → List ℚ → ℕ → List ℚ × List ℚ × List (List ℚ)
  | queue, leftover, 0 => ([], leftover, queue)
  | [], leftover, need + 1 => (List.replicate (need + 1) 0, leftover, [])
  | buffer :: rest, leftover, need + 1 =>
      let len := min buffer.length (need + 1)
      let r := fillLoop rest (leftover ++ buffer.drop len) (need + 1 - len)
      (buffer.take len ++ r.1, r.2)

/-- One invocation of the output callback of src/main.rs lines 91 to 115:
first copies as much of the leftover buffer as fits (removing the copied
part from it), then runs the try_recv fill loop for the remaining positions. -/
def callbackFill (leftover : List ℚ) (queue : List (List ℚ)) (n : ℕ) :
    List ℚ × List ℚ × List (List ℚ) :=
  let len := min leftover.length n
  let r := fillLoop queue (leftover.drop len) (n - len)
  (leftover.take len ++ r.1, r.2)

/-! ## Alternative consumer callback (src/audio/consumer.rs lines 19 to 38) -/

/-- Fill loop of src/audio/consumer.rs lines 30 to 37: writes n output
samples; while the play buffer is non-empty it removes its front sample and
emits it, remembering it as the last emitted sample; once the buffer is empty
it keeps emitting the last emitted sample.  Returns the output, the remaining
play buffer and the final last-sample register. -/
def consumerFill : ℕ → List ℚ → ℚ → List ℚ × List ℚ × ℚ
  | 0, buf, last => ([], buf, last)
  | n + 1, [], last =>
      let r := consumerFill n [] last
      (last :: r.1, r.2)
  | n + 1, x :: buf, _ =>
      let r := consumerFill n buf x
      (x :: r.1, r.2)

/-- One invocation of the consumer callback of src/audio/consumer.rs lines 23
to 38: first drains every pending producer message into the play buffer (the
try_recv while loop), then fills the output. -/
def consumerCallback (msgs : List (List ℚ)) (buf : List ℚ) (last : ℚ) (n : ℕ) :
    List ℚ × List ℚ × ℚ :=
  consumerFill n (buf ++ msgs.flatten) last

/-! ## Render worker chunking and shutdown (src/main.rs lines 142 to 190) -/

/-- Rust slice chunks as used at src/main.rs line 151 (samples.chunks(CHUNK)):
splits the sample list into consecutive pieces of length L; the final piece
may be shorter and is NOT padded. -/
def chunksOf (L : ℕ) (xs : List ℚ) : List (List ℚ) :=
  if h : L = 0 ∨ xs = [] then []
  else xs.take L :: chunksOf L (xs.drop L)
termination_by xs.length
decreasing_by
  simp only [List.length_drop]
  push_neg at h
  exact Nat.sub_lt (List.length_pos.mpr h.2) (Nat.pos_of_ne_zero h.1)

/-- Emission schedule of the inner chunk loop of process_audio_chunks
(src/main.rs lines 151 to 189) against a discrete tick clock.  `flag t` is
the value of the shared running flag at tick t; `recvAt t` is the tick at
which the blocking position recv entered at tick t returns (the next
orientation message arrival).  Each iteration checks the flag once at the
loop top, then blocks in recv, then emits its stereo chunk at the tick the
recv returned; the flag is not consulted again in between.  `k` is the number
of remaining source chunks; the result is the list of emission ticks. -/
def chunkLoopEmits (flag : ℕ → Bool) (recvAt : ℕ → ℕ) : ℕ → ℕ → List ℕ
  | 0, _ => []
  | k + 1, t =>
      if flag t then
        recvAt t :: chunkLoopEmits flag recvAt k (recvAt t + 1)
      else []

/-! ## Band filter bank (src/src/filter.rs)

The five fundsp SVF filters (lowpass, three bandpass, highpass) are external
capabilities: one call of `filter_mono` maps the internal filter state and an
input sample to the updated state and an output sample.  We therefore model
the bank parametrically in the state type `S` and in the five step functions;
everything the claims say is about how process_buffer drives the filters, not
about the SVF arithmetic itself. -/

/-- AudioBandProcessor of src/filter.rs lines 9 to 12: five filters, each a
fixed step function (the fundsp filter_mono of that band) together with its
current internal state, plus the per-band gain vector. -/
structure AudioBandProcessor (S : Type) where
  stepFns : Fin 5 → S → ℚ → S × ℚ
  filters : Fin 5 → S
  bands : Fin 5 → ℚ

/-- Runs one filter over a whole buffer threading its internal state (the
per-band inner loop of process_buffer, src/filter.rs lines 42 to 58), with
unit gain: returns the final state and the raw filter outputs. -/
def runFilter {S : Type} (f : S → ℚ → S × ℚ) : S → List ℚ → S × List ℚ
  | s, [] => (s, [])
  | s, x :: xs =>
      let p := f s x
      let r := runFilter f p.1 xs
      (r.1, p.2 :: r.2)

/-- Runs one filter over a whole buffer threading its internal state, scaling
every output sample by the band gain exactly as the source does
(temp_buffer[j] = bands[i] * filter_mono(sample), src/filter.rs line 45). -/
def runFilterGain {S : Type} (g : ℚ) (f : S → ℚ → S × ℚ) : S → List ℚ → S × List ℚ
  | s, [] => (s, [])
  | s, x :: xs =>
      let p := f s x
      let r := runFilterGain g f p.1 xs
      (r.1, g * p.2 :: r.2)

/-- Pointwise addition of two sample buffers (the accumulation loop at
src/filter.rs lines 61 to 63). -/
def addLists (a b : List ℚ) : List ℚ := List.zipWith (· + ·) a b

/-- process_buffer of src/filter.rs lines 32 to 65: clears the output buffer,
then for each of the five bands runs the whole input through that band filter
(updating that filter state), scales by the band gain and accumulates into
the output. -/
def process_buffer {S : Type} (p : AudioBandProcessor S) (input : List ℚ) :
    AudioBandProcessor S × List ℚ :=
  (List.finRange 5).foldl
    (fun acc i =>
      let r := runFilterGain (acc.1.bands i) (acc.1.stepFns i) (acc.1.filters i) input
      ({ acc.1 with filters := Function.update acc.1.filters i r.1 }, addLists acc.2 r.2))
    (p, List.replicate input.length 0)

/-- update_bands of src/filter.rs lines 28 to 30. -/
def update_bands {S : Type} (p : AudioBandProcessor S) (newBands : Fin 5 → ℚ) :
    AudioBandProcessor S :=
  { p with bands := newBands }

/-! ## Checked models of the callback bodies

To settle the no-panic claim we re-express the two hardware callbacks with
every slice operation guarded exactly by the bound the corresponding Rust
operation asserts; an operation whose bound fails yields `none` (the panic).
The claim is that `none` is unreachable. -/

/-- Rust slice indexing xs[a..b]: defined only when a ≤ b ≤ xs.length. -/
def slice? (xs : List ℚ) (a b : ℕ) : Option (List ℚ) :=
  if a ≤ b ∧ b ≤ xs.length then some ((xs.drop a).take (b - a)) else none

/-- Rust copy_from_slice into data[idx..idx + src.length]: defined only when
the destination range is in bounds (copy_from_slice itself requires the two
slices to have equal length, which holds by construction of the range). -/
def writeSlice? (data : List ℚ) (idx : ℕ) (src : List ℚ) : Option (List ℚ) :=
  if idx + src.length ≤ data.length then
    some (data.take idx ++ src ++ data.drop (idx + src.length))
  else none

/-- Rust Vec::drain(..len): defined only when len ≤ xs.length. -/
def drain? (xs : List ℚ) (len : ℕ) : Option (List ℚ) :=
  if len ≤ xs.length then some (xs.drop len) else none

/-- Rust data[idx..].fill(0.0): defined only when idx ≤ data.length. -/
def fillFrom? (data : List ℚ) (idx : ℕ) : Option (List ℚ) :=
  if idx ≤ data.length then some (data.take idx ++ List.replicate (data.length - idx) 0)
  else none

/-- Checked version of the try_recv loop of src/main.rs lines 99 to 114,
operating on the actual output buffer with its fill index. -/
def fillLoopChecked :
    List (List ℚ) → List ℚ → List ℚ → ℕ → Option (List ℚ × List ℚ × List (List ℚ))
  | [], leftover, data, idx =>
      if idx < data.length then
        (fillFrom? data idx).map (fun d => (d, leftover, ([] : List (List ℚ))))
      else some (data, leftover, [])
  | buffer :: rest, leftover, data, idx =>
      if idx < data.length then
        let len := min buffer.length (data.length - idx)
        (slice? buffer 0 len).bind fun src =>
          (writeSlice? data idx src).bind fun data' =>
            if len < buffer.length then
              (slice? buffer len buffer.length).bind fun rem =>
                fillLoopChecked rest (leftover ++ rem) data' (idx + len)
            else fillLoopChecked rest leftover data' (idx + len)
      else some (data, leftover, buffer :: rest)

/-- Checked version of the whole output callback body of src/main.rs lines 91
to 115 (leftover copy, drain, then the try_recv loop), on an arbitrary device
buffer `data`. -/
def callbackChecked (leftover : List ℚ) (queue : List (List ℚ)) (data : List ℚ) :
    Option (List ℚ × List ℚ × List (List ℚ)) :=
  if leftover.isEmpty then fillLoopChecked queue leftover data 0
  else
    let len := min leftover.length data.length
    (slice? leftover 0 len).bind fun src =>
      (writeSlice? data 0 src).bind fun data' =>
        (drain? leftover len).bind fun leftover' =>
          fillLoopChecked queue leftover' data' len

/-- Rust Vec::remove(0) as used at src/audio/consumer.rs line 32: defined
only on a non-empty vector (remove panics on an empty one). -/
def removeFront? : List ℚ → Option (ℚ × List ℚ)
  | [] => none
  | x :: xs => some (x, xs)

/-- Checked version of the consumer fill loop of src/audio/consumer.rs lines
30 to 37: remove(0) is reached only under the non-emptiness test. -/
def consumerFillChecked : ℕ → List ℚ → ℚ → Option (List ℚ × List ℚ × ℚ)
  | 0, buf, last => some ([], buf, last)
  | n + 1, buf, last =>
      if buf.isEmpty then
        (consumerFillChecked n buf last).map fun r => (last :: r.1, r.2)
      else
        (removeFront? buf).bind fun p =>
          (consumerFillChecked n p.2 p.1).map fun r => (p.1 :: r.1, r.2)

/-- Checked version of the whole consumer callback of
src/audio/consumer.rs lines 23 to 38. -/
def consumerCallbackChecked (msgs : List (List ℚ)) (buf : List ℚ) (last : ℚ) (n : ℕ) :
    Option (List ℚ × List ℚ × ℚ) :=
  consumerFillChecked n (buf ++ msgs.flatten) last

/-! ## Lemmas about the output callback -/

lemma fillLoop_zero (queue : List (List ℚ)) (lo : List ℚ) :
    fillLoop queue lo 0 = ([], lo, queue) := by
  cases queue <;> rfl

lemma fillLoop_nil (lo : List ℚ) (need : ℕ) :
    fillLoop [] lo (need + 1) = (List.replicate (need + 1) 0, lo, []) := rfl

lemma fillLoop_cons (b : List ℚ) (rest : List (List ℚ)) (lo : List ℚ) (need : ℕ) :
    fillLoop (b :: rest) lo (need + 1) =
      (b.take (min b.length (need + 1)) ++
         (fillLoop rest (lo ++ b.drop (min b.length (need + 1)))
            (need + 1 - min b.length (need + 1))).1,
       (fillLoop rest (lo ++ b.drop (min b.length (need + 1)))
          (need + 1 - min b.length (need + 1))).2) := rfl

lemma fillLoop_underrun (queue : List (List ℚ)) :
    ∀ (lo : List ℚ) (need : ℕ), queue.flatten.length < need →
      fillLoop queue lo need =
        (queue.flatten ++ List.replicate (need - queue.flatten.length) 0, lo, []) := by
  induction queue with
  | nil =>
      intro lo need h
      cases need with
      | zero => exact absurd h (by simp)
      | succ m => simp [fillLoop_nil]
  | cons b rest ih =>
      intro lo need h
      cases need with
      | zero => exact absurd h (Nat.not_lt_zero _)
      | succ m =>
          have hflat : (b :: rest).flatten.length = b.length + rest.flatten.length := by
            simp
          have hb : b.length ≤ m + 1 := by omega
          have hmin : min b.length (m + 1) = b.length := Nat.min_eq_left hb
          have hrest : rest.flatten.length < m + 1 - b.length := by omega
          rw [fillLoop_cons, hmin, List.drop_length, List.append_nil, List.take_length,
            ih _ _ hrest]
          simp only [List.flatten_cons]
          have hcount : m + 1 - b.length - rest.flatten.length
              = m + 1 - (b ++ rest.flatten).length := by
            simp only [List.length_append]
            omega
          rw [hcount, List.append_assoc]

/-! ## Lemmas about slice chunking -/

lemma chunksOf_nil (L : ℕ) : chunksOf L [] = [] := by
  rw [chunksOf]
  simp

lemma chunksOf_cons (L : ℕ) (xs : List ℚ) (hL : L ≠ 0) (hxs : xs ≠ []) :
    chunksOf L xs = xs.take L :: chunksOf L (xs.drop L) := by
  rw [chunksOf, dif_neg]
  push_neg
  exact ⟨hL, hxs⟩

lemma chunksOf_exact (L : ℕ) (hL : 0 < L) :
    ∀ (k : ℕ) (xs : List ℚ), xs.length = k * L →
      (chunksOf L xs).length = k ∧ ∀ c ∈ chunksOf L xs, c.length = L := by
  intro k
  induction k with
  | zero =>
      intro xs h
      have hxs : xs = [] := List.length_eq_zero.mp (by simpa using h)
      subst hxs
      simp [chunksOf_nil]
  | succ n ih =>
      intro xs h
      have hlen : xs.length = n * L + L := by rw [h, Nat.succ_mul]
      have hxs : xs ≠ [] := by
        intro e
        rw [e] at hlen
        simp at hlen
        have := Nat.le_add_left L (n * L)
        omega
      rw [chunksOf_cons L xs (Nat.pos_iff_ne_zero.mp hL) hxs]
      have hLle : L ≤ xs.length := by
        rw [hlen]
        exact Nat.le_add_left L (n * L)
      have hdrop : (xs.drop L).length = n * L := by
        simp [List.length_drop, hlen]
      obtain ⟨hcount, hall⟩ := ih (xs.drop L) hdrop
      refine ⟨by simp [hcount], ?_⟩
      intro c hc
      rcases List.mem_cons.mp hc with rfl | hc
      · simp [List.length_take, Nat.min_eq_left hLle]
      · exact hall c hc

lemma chunksOf_rem (L : ℕ) (hL : 0 < L) :
    ∀ (k : ℕ) (r : ℕ) (xs : List ℚ), 0 < r → r < L → xs.length = k * L + r →
      (chunksOf L xs).length = k + 1 ∧ ((chunksOf L xs).getLastD []).length = r := by
  intro k
  induction k with
  | zero =>
      intro r xs hr0 hrL h
      have hxs : xs ≠ [] := by
        intro e
        rw [e] at h
        simp at h
        omega
      have hlen : xs.length = r := by simpa using h
      have hdrop : xs.drop L = [] := by
        apply List.eq_nil_of_length_eq_zero
        simp [List.length_drop, hlen]
        omega
      rw [chunksOf_cons L xs (Nat.pos_iff_ne_zero.mp hL) hxs, hdrop, chunksOf_nil]
      have htake : xs.take L = xs := List.take_of_length_le (by omega)
      simp [htake, hlen]
  | succ n ih =>
      intro r xs hr0 hrL h
      have hlen : xs.length = n * L + r + L := by rw [h, Nat.succ_mul]; ring
      have hxs : xs ≠ [] := by
        intro e
        rw [e] at hlen
        simp at hlen
        omega
      rw [chunksOf_cons L xs (Nat.pos_iff_ne_zero.mp hL) hxs]
      have hdrop : (xs.drop L).length = n * L + r := by
        simp [List.length_drop, hlen]
      obtain ⟨hcount, hlast⟩ := ih r (xs.drop L) hr0 hrL hdrop
      have hne : chunksOf L (xs.drop L) ≠ [] := by
        intro e
        rw [e] at hcount
        simp at hcount
      refine ⟨by simp [hcount], ?_⟩
      rw [List.getLastD_cons]
      rw [List.getLastD_eq_getLast? ] at hlast ⊢
      rw [List.getLast?_eq_getLast _ hne] at hlast ⊢
      simpa using hlast

/-! ## Lemmas about the band filter bank -/

lemma runFilter_length {S : Type} (f : S → ℚ → S × ℚ) :
    ∀ (s : S) (xs : List ℚ), ((runFilter f s xs).2).length = xs.length := by
  intro s xs
  induction xs generalizing s with
  | nil => rfl
  | cons x xs ih => simp [runFilter, ih]

lemma runFilterGain_eq {S : Type} (g : ℚ) (f : S → ℚ → S × ℚ) :
    ∀ (s : S) (xs : List ℚ),
      runFilterGain g f s xs =
        ((runFilter f s xs).1, ((runFilter f s xs).2).map (fun y => g * y)) := by
  intro s xs
  induction xs generalizing s with
  | nil => rfl
  | cons x xs ih => simp [runFilter, runFilterGain, ih]

lemma runFilterGain_length {S : Type} (g : ℚ) (f : S → ℚ → S × ℚ) (s : S) (xs : List ℚ) :
    ((runFilterGain g f s xs).2).length = xs.length := by
  rw [runFilterGain_eq]
  simp [runFilter_length]

lemma runFilter_append {S : Type} (f : S → ℚ → S × ℚ) (xs ys : List ℚ) :
    ∀ (s : S),
      runFilter f s (xs ++ ys) =
        ((runFilter f (runFilter f s xs).1 ys).1,
         (runFilter f s xs).2 ++ (runFilter f (runFilter f s xs).1 ys).2) := by
  induction xs with
  | nil => intro s; simp [runFilter]
  | cons x xs ih => intro s; simp [runFilter, ih]

lemma runFilterGain_zero {S : Type} (f : S → ℚ → S × ℚ) (s : S) (xs : List ℚ) :
    (runFilterGain 0 f s xs).2 = List.replicate xs.length 0 := by
  rw [runFilterGain_eq]
  simp only []
  have : ∀ l : List ℚ, l.map (fun y => (0 : ℚ) * y) = List.replicate l.length 0 := by
    intro l
    induction l with
    | nil => rfl
    | cons a l ih => simp [ih, List.replicate_succ]
  rw [this, runFilter_length]

lemma addLists_length (a b : List ℚ) (h : a.length = b.length) :
    (addLists a b).length = a.length := by
  simp [addLists, h]

lemma addLists_getD (a : List ℚ) :
    ∀ (b : List ℚ) (j : ℕ), a.length = b.length →
      (addLists a b).getD j 0 = a.getD j 0 + b.getD j 0 := by
  induction a with
  | nil =>
      intro b j h
      have : b = [] := List.eq_nil_of_length_eq_zero (by simpa using h.symm)
      subst this
      simp [addLists]
  | cons x xs ih =>
      intro b j h
      cases b with
      | nil => simp at h
      | cons y ys =>
          cases j with
          | zero => simp [addLists]
          | succ m =>
              have hlen : xs.length = ys.length := by simpa using h
              simpa [addLists] using ih ys m hlen

lemma getD_replicate_zero : ∀ (n j : ℕ), (List.replicate n (0 : ℚ)).getD j 0 = 0 := by
  intro n
  induction n with
  | zero => intro j; simp
  | succ m ih =>
      intro j
      cases j with
      | zero => simp [List.replicate_succ]
      | succ i => rw [List.replicate_succ, List.getD_cons_succ]; exact ih i

lemma getD_map_mul (g : ℚ) :
    ∀ (l : List ℚ) (j : ℕ), (l.map (fun y => g * y)).getD j 0 = g * l.getD j 0 := by
  intro l
  induction l with
  | nil => intro j; simp
  | cons x xs ih =>
      intro j
      cases j with
      | zero => simp
      | succ m => simpa using ih m

lemma addLists_replicate_zero : ∀ n : ℕ,
    addLists (List.replicate n (0 : ℚ)) (List.replicate n 0) = List.replicate n 0 := by
  intro n
  induction n with
  | zero => rfl
  | succ m ih =>
      rw [List.replicate_succ]
      simp only [addLists, List.zipWith_cons_cons, add_zero]
      rw [← addLists]
      rw [ih]

lemma process_buffer_snd {S : Type} (p : AudioBandProcessor S) (input : List ℚ) :
    (process_buffer p input).2 =
      addLists (addLists (addLists (addLists (addLists (List.replicate input.length 0)
        (runFilterGain (p.bands 0) (p.stepFns 0) (p.filters 0) input).2)
        (runFilterGain (p.bands 1) (p.stepFns 1) (p.filters 1) input).2)
        (runFilterGain (p.bands 2) (p.stepFns 2) (p.filters 2) input).2)
        (runFilterGain (p.bands 3) (p.stepFns 3) (p.filters 3) input).2)
        (runFilterGain (p.bands 4) (p.stepFns 4) (p.filters 4) input).2 := rfl

lemma process_buffer_stepFns {S : Type} (p : AudioBandProcessor S) (input : List ℚ) :
    (process_buffer p input).1.stepFns = p.stepFns := rfl

lemma process_buffer_bands {S : Type} (p : AudioBandProcessor S) (input : List ℚ) :
    (process_buffer p input).1.bands = p.bands := rfl

lemma process_buffer_filters {S : Type} (p : AudioBandProcessor S) (input : List ℚ) :
    (process_buffer p input).1.filters =
      Function.update (Function.update (Function.update (Function.update
        (Function.update p.filters
          0 (runFilterGain (p.bands 0) (p.stepFns 0) (p.filters 0) input).1)
          1 (runFilterGain (p.bands 1) (p.stepFns 1) (p.filters 1) input).1)
          2 (runFilterGain (p.bands 2) (p.stepFns 2) (p.filters 2) input).1)
          3 (runFilterGain (p.bands 3) (p.stepFns 3) (p.filters 3) input).1)
          4 (runFilterGain (p.bands 4) (p.stepFns 4) (p.filters 4) input).1 := rfl

lemma process_buffer_filters_apply {S : Type} (p : AudioBandProcessor S) (input : List ℚ)
    (i : Fin 5) :
    (process_buffer p input).1.filters i =
      (runFilterGain (p.bands i) (p.stepFns i) (p.filters i) input).1 := by
  rw [process_buffer_filters]
  fin_cases i <;> simp [Function.update]

lemma process_buffer_getD {S : Type} (p : AudioBandProcessor S) (input : List ℚ) (j : ℕ) :
    ((process_buffer p input).2).getD j 0 =
      ∑ i : Fin 5, p.bands i * ((runFilter (p.stepFns i) (p.filters i) input).2).getD j 0 := by
  have hlen : ∀ i : Fin 5,
      ((runFilterGain (p.bands i) (p.stepFns i) (p.filters i) input).2).length
        = input.length := fun i => runFilterGain_length _ _ _ _
  have h0 : (List.replicate input.length (0 : ℚ)).length = input.length := by simp
  have h1 := addLists_length _ _ (h0.trans (hlen 0).symm)
  have h2 := addLists_length _ _ ((h1.trans h0).trans (hlen 1).symm)
  have h3 := addLists_length _ _ (((h2.trans h1).trans h0).trans (hlen 2).symm)
  have h4 := addLists_length _ _ ((((h3.trans h2).trans h1).trans h0).trans (hlen 3).symm)
  rw [process_buffer_snd,
    addLists_getD _ _ j (((((h4.trans h3).trans h2).trans h1).trans h0).trans (hlen 4).symm),
    addLists_getD _ _ j ((((h3.trans h2).trans h1).trans h0).trans (hlen 3).symm),
    addLists_getD _ _ j (((h2.trans h1).trans h0).trans (hlen 2).symm),
    addLists_getD _ _ j ((h1.trans h0).trans (hlen 1).symm),
    addLists_getD _ _ j (h0.trans (hlen 0).symm),
    getD_replicate_zero]
  simp only [runFilterGain_eq, getD_map_mul]
  rw [Fin.sum_univ_five]
  ring

lemma process_buffer_zero_gains {S : Type} (p : AudioBandProcessor S)
    (h : ∀ i, p.bands i = 0) (input : List ℚ) :
    (process_buffer p input).2 = List.replicate input.length 0 := by
  rw [process_buffer_snd, h 0, h 1, h 2, h 3, h 4]
  rw [runFilterGain_zero, runFilterGain_zero, runFilterGain_zero, runFilterGain_zero,
    runFilterGain_zero]
  rw [addLists_replicate_zero, addLists_replicate_zero, addLists_replicate_zero,
    addLists_replicate_zero, addLists_replicate_zero]

/-! ## Lemmas about the alternative consumer callback -/

lemma consumerFill_nil_buf (last : ℚ) :
    ∀ n : ℕ, consumerFill n [] last = (List.replicate n last, [], last) := by
  intro n
  induction n with
  | zero => rfl
  | succ m ih => simp [consumerFill, ih, List.replicate_succ]

lemma consumerFill_drain :
    ∀ (b : List ℚ) (last : ℚ) (n : ℕ), b.length ≤ n →
      consumerFill n b last =
        (b ++ List.replicate (n - b.length) (b.getLastD last), [], b.getLastD last) := by
  intro b
  induction b with
  | nil =>
      intro last n _
      simp [consumerFill_nil_buf]
  | cons x bs ih =>
      intro last n h
      cases n with
      | zero => simp at h
      | succ m =>
          have hm : bs.length ≤ m := by simpa using h
          simp only [consumerFill, ih x m hm, List.getLastD_cons]
          simp [List.cons_append]

/-! ## Lemmas about the checked callback models -/

lemma slice?_eq (xs : List ℚ) (a b : ℕ) (h1 : a ≤ b) (h2 : b ≤ xs.length) :
    slice? xs a b = some ((xs.drop a).take (b - a)) := by
  simp [slice?, h1, h2]

lemma writeSlice?_eq (data : List ℚ) (idx : ℕ) (src : List ℚ)
    (h : idx + src.length ≤ data.length) :
    writeSlice? data idx src =
      some (data.take idx ++ src ++ data.drop (idx + src.length)) := by
  simp [writeSlice?, h]

lemma writeSlice?_length (data : List ℚ) (idx : ℕ) (src : List ℚ) (d' : List ℚ)
    (h : writeSlice? data idx src = some d') : d'.length = data.length := by
  rw [writeSlice?] at h
  split at h
  · cases h
    next hle =>
      simp only [List.length_append, List.length_take, List.length_drop]
      omega
  · cases h

lemma fillLoopChecked_isSome :
    ∀ (queue : List (List ℚ)) (lo data : List ℚ) (idx : ℕ),
      (fillLoopChecked queue lo data idx).isSome = true := by
  intro queue
  induction queue with
  | nil =>
      intro lo data idx
      by_cases hidx : idx < data.length
      · simp [fillLoopChecked, hidx, fillFrom?, Nat.le_of_lt hidx]
      · simp [fillLoopChecked, hidx]
  | cons b rest ih =>
      intro lo data idx
      by_cases hidx : idx < data.length
      · have hlen1 : min b.length (data.length - idx) ≤ b.length := Nat.min_le_left _ _
        have hlen2 : min b.length (data.length - idx) ≤ data.length - idx :=
          Nat.min_le_right _ _
        have hsrclen : ((b.drop 0).take (min b.length (data.length - idx) - 0)).length
            = min b.length (data.length - idx) := by
          simp only [List.drop_zero, Nat.sub_zero, List.length_take]
          omega
        have hw : idx + ((b.drop 0).take (min b.length (data.length - idx) - 0)).length
            ≤ data.length := by
          rw [hsrclen]
          omega
        rw [fillLoopChecked]
        rw [if_pos hidx]
        simp only [slice?_eq b 0 (min b.length (data.length - idx)) (Nat.zero_le _) hlen1,
          writeSlice?_eq _ _ _ hw, Option.some_bind]
        by_cases hpart : min b.length (data.length - idx) < b.length
        · rw [if_pos hpart]
          simp only [slice?_eq b (min b.length (data.length - idx)) b.length
            (Nat.le_of_lt hpart) (Nat.le_refl _), Option.some_bind]
          exact ih _ _ _
        · rw [if_neg hpart]
          exact ih _ _ _
      · simp [fillLoopChecked, hidx]

lemma callbackChecked_isSome (lo : List ℚ) (queue : List (List ℚ)) (data : List ℚ) :
    (callbackChecked lo queue data).isSome = true := by
  by_cases hlo : lo.isEmpty
  · simp [callbackChecked, hlo, fillLoopChecked_isSome]
  · have hmin1 : min lo.length data.length ≤ lo.length := Nat.min_le_left _ _
    have hmin2 : min lo.length data.length ≤ data.length := Nat.min_le_right _ _
    have hsrclen : ((lo.drop 0).take (min lo.length data.length - 0)).length
        = min lo.length data.length := by
      simp only [List.drop_zero, Nat.sub_zero, List.length_take]
      omega
    have hw : 0 + ((lo.drop 0).take (min lo.length data.length - 0)).length
        ≤ data.length := by
      rw [hsrclen]
      omega
    rw [callbackChecked]
    rw [if_neg hlo]
    have hdrain : drain? lo (min lo.length data.length) = some (lo.drop (min lo.length data.length)) := by
      rw [drain?, if_pos hmin1]
    simp only [slice?_eq lo 0 (min lo.length data.length) (Nat.zero_le _) hmin1,
      writeSlice?_eq _ _ _ hw, hdrain, Option.some_bind]
    exact fillLoopChecked_isSome _ _ _ _

lemma consumerFillChecked_isSome :
    ∀ (n : ℕ) (buf : List ℚ) (last : ℚ), (consumerFillChecked n buf last).isSome = true := by
  intro n
  induction n with
  | zero => intro buf last; rfl
  | succ m ih =>
      intro buf last
      by_cases hb : buf.isEmpty
      · simp [consumerFillChecked, hb, ih]
      · cases buf with
        | nil => simp at hb
        | cons x xs => simp [consumerFillChecked, removeFront?, ih]

/-! ## Claim theorems -/

/-- C1: in the hardware output callback, whenever the handoff queue yields no
chunk while output positions remain unfilled (total available data shorter
than the requested buffer), every remaining output position is filled with
exactly 0, the callback stops pulling (queue fully consumed, nothing held
back), and no error is raised: the callback still returns a completely
filled buffer. -/
theorem c1_underrun_fills_silence (leftover : List ℚ) (queue : List (List ℚ)) (n : ℕ)
    (h : (leftover ++ queue.flatten).length < n) :
    callbackFill leftover queue n =
      ((leftover ++ queue.flatten) ++
         List.replicate (n - (leftover ++ queue.flatten).length) 0, [], []) := by
  have hlo : leftover.length < n := by
    simp only [List.length_append] at h
    omega
  have hmin : min leftover.length n = leftover.length := Nat.min_eq_left (le_of_lt hlo)
  have hflat : queue.flatten.length < n - leftover.length := by
    simp only [List.length_append] at h
    omega
  simp only [callbackFill, hmin, List.drop_length, List.take_length,
    fillLoop_underrun queue [] (n - leftover.length) hflat]
  have hcount : n - leftover.length - queue.flatten.length
      = n - (leftover ++ queue.flatten).length := by
    simp only [List.length_append]
    omega
  rw [hcount, List.append_assoc]

/-- C1 witness: a concrete underrun invocation. -/
theorem c1_underrun_fills_silence_witness :
    callbackFill [1] [[2, 3]] 6 =
      ((([1] : List ℚ) ++ [[2, 3]].flatten) ++
         List.replicate (6 - (([1] : List ℚ) ++ [[2, 3]].flatten).length) 0, [], []) :=
  c1_underrun_fills_silence [1] [[2, 3]] 6 (by simp)

/-- C5: in every callback invocation, the leftover buffer is copied into the
output first and the copied part removed from it; as long as the leftover
buffer alone covers the request no chunk is pulled from the queue (the queue
is untouched, so the leftover buffer is fully drained before any new chunk is
pulled); and when a popped chunk only partially fits, its unfitted remainder
becomes the new leftover buffer and filling stops for that invocation (the
rest of the queue is untouched). -/
theorem c5_leftover_discipline :
    (∀ (leftover : List ℚ) (queue : List (List ℚ)) (n : ℕ), n ≤ leftover.length →
        callbackFill leftover queue n = (leftover.take n, leftover.drop n, queue)) ∧
    (∀ (leftover b : List ℚ) (rest : List (List ℚ)) (n : ℕ),
        leftover.length < n → n - leftover.length < b.length →
        callbackFill leftover (b :: rest) n =
          (leftover ++ b.take (n - leftover.length), b.drop (n - leftover.length), rest)) := by
  constructor
  · intro lo q n h
    have hmin : min lo.length n = n := Nat.min_eq_right h
    simp only [callbackFill, hmin, Nat.sub_self, fillLoop_zero, List.append_nil]
  · intro lo b rest n h1 h2
    have hmin : min lo.length n = lo.length := Nat.min_eq_left (le_of_lt h1)
    obtain ⟨m, hm⟩ : ∃ m, n - lo.length = m + 1 := ⟨n - lo.length - 1, by omega⟩
    have hbmin : min b.length (m + 1) = m + 1 := Nat.min_eq_right (by omega)
    simp only [callbackFill, hmin, List.drop_length, List.take_length, hm, fillLoop_cons,
      hbmin, Nat.sub_self, fillLoop_zero, List.append_nil, List.nil_append]

/-- C5 witness: a concrete no-pull invocation and a concrete
partially-fitting-chunk invocation. -/
theorem c5_leftover_discipline_witness :
    callbackFill [1, 2, 3] [[9]] 2 =
      (([1, 2, 3] : List ℚ).take 2, ([1, 2, 3] : List ℚ).drop 2, [[9]]) ∧
    callbackFill [1] [[2, 3, 4], [9]] 3 =
      (([1] : List ℚ) ++ ([2, 3, 4] : List ℚ).take (3 - ([1] : List ℚ).length),
       ([2, 3, 4] : List ℚ).drop (3 - ([1] : List ℚ).length), [[9]]) :=
  ⟨c5_leftover_discipline.1 [1, 2, 3] [[9]] 2 (by simp),
   c5_leftover_discipline.2 [1] [2, 3, 4] [[9]] 3 (by simp) (by simp)⟩

/-- C3 counterexample: the pipeline constant chunk length is 1024; feeding
1025 = 1 * 1024 + 1 samples produces 2 chunks whose last chunk has length 1,
not the full length 1024 the claim asserts: the final chunk is truncated, not
zero-padded. -/
theorem c3_counterexample :
    (chunksOf CHUNK (List.replicate 1025 0)).length = 2 ∧
    ((chunksOf CHUNK (List.replicate 1025 0)).getLastD []).length = 1 ∧
    ((chunksOf CHUNK (List.replicate 1025 0)).getLastD []).length ≠ CHUNK := by
  have hC : CHUNK = 1024 := by norm_num [CHUNK, INTERPOLATION_STEPS, BLOCK_LEN]
  have hL : 0 < CHUNK := by rw [hC]; norm_num
  have hrL : 1 < CHUNK := by rw [hC]; norm_num
  have hlen : (List.replicate 1025 (0 : ℚ)).length = 1 * CHUNK + 1 := by
    rw [List.length_replicate, hC]
  have h := chunksOf_rem CHUNK hL 1 1 (List.replicate 1025 0) (by norm_num) hrL hlen
  exact ⟨h.1, h.2, by rw [h.2, hC]; norm_num⟩

/-- C3 amended: for every chunk length L bigger than 0, a source of exactly
k * L samples yields exactly k chunks, each of length L, with no padding; a
source of k * L + r samples (0 < r < L) yields k + 1 chunks whose last chunk
has length r: it is truncated to the remainder, not zero-padded to L. -/
theorem c3_amended_chunking :
    (∀ (L k : ℕ) (xs : List ℚ), 0 < L → xs.length = k * L →
        (chunksOf L xs).length = k ∧ ∀ c ∈ chunksOf L xs, c.length = L) ∧
    (∀ (L k r : ℕ) (xs : List ℚ), 0 < L → 0 < r → r < L → xs.length = k * L + r →
        (chunksOf L xs).length = k + 1 ∧ ((chunksOf L xs).getLastD []).length = r) :=
  ⟨fun L k xs hL h => chunksOf_exact L hL k xs h,
   fun L k r xs hL h0 hr h => chunksOf_rem L hL k r xs h0 hr h⟩

/-- C3 amended witness: concrete exact and remainder chunkings. -/
theorem c3_amended_chunking_witness :
    ((chunksOf 2 [1, 2, 3, 4]).length = 2 ∧ ∀ c ∈ chunksOf 2 [1, 2, 3, 4], c.length = 2) ∧
    ((chunksOf 2 [1, 2, 3]).length = 1 + 1 ∧
       ((chunksOf 2 [1, 2, 3]).getLastD []).length = 1) :=
  ⟨c3_amended_chunking.1 2 2 [1, 2, 3, 4] (by norm_num) (by simp),
   c3_amended_chunking.2 2 1 1 [1, 2, 3] (by norm_num) (by norm_num) (by norm_num) (by simp)⟩

/-- C2: the orientation intake of the render worker is a blocking FIFO
receive, not a freshest-wins overwrite: with two pending updates the worker
consumes the OLDER one and the fresher one stays queued for the next chunk
(updates accumulate rather than overwrite), and with no pending update the
worker gets nothing and stays blocked inside recv. -/
theorem c2_blocking_fifo_read :
    orientationRecv [(1, 0, 0), (0, 1, 0)] = some ((1, 0, 0), [(0, 1, 0)]) ∧
    orientationRecv [] = none ∧
    ((1, 0, 0) : ℚ × ℚ × ℚ) ≠ (0, 1, 0) :=
  ⟨rfl, rfl, by norm_num⟩

/-- C4: the handoff channel created by mpsc::channel() is unbounded: five
consecutive sends with no pop all succeed immediately, keeping all five
chunks in FIFO order; nothing blocks, times out or is dropped, and the queue
length exceeds the claimed capacity bound of 4. -/
theorem c4_unbounded_handoff :
    mpscSend (mpscSend (mpscSend (mpscSend (mpscSend
        ([] : List (List ℚ)) [1]) [2]) [3]) [4]) [5] = [[1], [2], [3], [4], [5]] ∧
    (mpscSend (mpscSend (mpscSend (mpscSend (mpscSend
        ([] : List (List ℚ)) [1]) [2]) [3]) [4]) [5]).length = 5 :=
  ⟨rfl, rfl⟩

/-- C8: the running flag is not consulted at the blocking orientation recv:
with the flag cleared from tick 1 on (stop signalled right after the loop-top
check at tick 0) and the next orientation message arriving only at tick 100,
the worker still emits a chunk at tick 100, arbitrarily long after stop; a
loop iteration whose top check already sees the cleared flag emits nothing. -/
theorem c8_chunk_emitted_after_stop :
    (fun t => decide (t = 0)) 1 = false ∧
    chunkLoopEmits (fun t => decide (t = 0)) (fun _ => 100) 1 0 = [100] ∧
    chunkLoopEmits (fun t => decide (t = 0)) (fun _ => 100) 1 1 = [] :=
  ⟨rfl, rfl, rfl⟩

/-- C6: for every input buffer, each output sample of the band filter bank is
the sum over the five bands of the band gain times the output of that band
filter run independently over the same input (a parallel bank, not a serial
cascade); and each filter carries its internal state across calls without
reset: the state after processing two buffers in a row equals the state after
processing their concatenation in one call. -/
theorem c6_parallel_bank_with_state :
    (∀ (S : Type) (p : AudioBandProcessor S) (input : List ℚ) (j : ℕ),
        ((process_buffer p input).2).getD j 0 =
          ∑ i : Fin 5, p.bands i *
            ((runFilter (p.stepFns i) (p.filters i) input).2).getD j 0) ∧
    (∀ (S : Type) (p : AudioBandProcessor S) (xs ys : List ℚ) (i : Fin 5),
        (process_buffer (process_buffer p xs).1 ys).1.filters i =
          (runFilter (p.stepFns i) (p.filters i) (xs ++ ys)).1) := by
  constructor
  · intro S p input j
    exact process_buffer_getD p input j
  · intro S p xs ys i
    rw [process_buffer_filters_apply, process_buffer_bands, process_buffer_stepFns,
      process_buffer_filters_apply]
    simp only [runFilterGain_eq, runFilter_append]

/-- C7: with the band gain vector set to all zeros via update_bands, the
output buffer of the band filter bank is exactly silence (every sample 0) for
every input buffer and every filter state. -/
theorem c7_zero_gains_silence (S : Type) (p : AudioBandProcessor S) (input : List ℚ) :
    (process_buffer (update_bands p (fun _ => 0)) input).2 =
      List.replicate input.length 0 :=
  process_buffer_zero_gains _ (fun _ => rfl) input

/-- C9: neither hardware callback body can panic: with every slice indexing,
copy, drain and remove operation guarded by the exact bound the corresponding
Rust operation asserts, both checked callback bodies succeed (return some) on
every leftover buffer, every queue content and every device buffer. -/
theorem c9_callback_no_panic :
    (∀ (leftover : List ℚ) (queue : List (List ℚ)) (data : List ℚ),
        (callbackChecked leftover queue data).isSome = true) ∧
    (∀ (msgs : List (List ℚ)) (buf : List ℚ) (last : ℚ) (n : ℕ),
        (consumerCallbackChecked msgs buf last n).isSome = true) :=
  ⟨fun lo q d => callbackChecked_isSome lo q d,
   fun msgs buf last n => consumerFillChecked_isSome n (buf ++ msgs.flatten) last⟩

/-- C10: in the alternative consumer callback, when the play buffer is empty
(after draining pending messages) every output position is filled with the
most recently emitted sample, which stays 0 only while nothing has ever been
emitted; more generally, once the play buffer drains mid-fill, the remaining
positions repeat the last emitted sample. -/
theorem c10_underrun_holds_last_sample :
    (∀ (msgs : List (List ℚ)) (buf : List ℚ) (last : ℚ) (n : ℕ),
        buf ++ msgs.flatten = [] →
        consumerCallback msgs buf last n = (List.replicate n last, [], last)) ∧
    (∀ (msgs : List (List ℚ)) (buf : List ℚ) (last : ℚ) (n : ℕ),
        (buf ++ msgs.flatten).length ≤ n →
        consumerCallback msgs buf last n =
          ((buf ++ msgs.flatten) ++
             List.replicate (n - (buf ++ msgs.flatten).length)
               ((buf ++ msgs.flatten).getLastD last),
           [], (buf ++ msgs.flatten).getLastD last)) := by
  constructor
  · intro msgs buf last n h
    simp only [consumerCallback, h, consumerFill_nil_buf]
  · intro msgs buf last n h
    simp only [consumerCallback, consumerFill_drain _ _ _ h]

/-- C10 witness: an always-empty invocation holding the initial register, and
an invocation that drains a two-sample message then repeats its last value. -/
theorem c10_underrun_holds_last_sample_witness :
    consumerCallback [] [] 3 4 = (List.replicate 4 3, [], 3) ∧
    consumerCallback [[1, 2]] [] 0 4 =
      ((([] : List ℚ) ++ [[1, 2]].flatten) ++
         List.replicate (4 - (([] : List ℚ) ++ [[1, 2]].flatten).length)
           ((([] : List ℚ) ++ [[1, 2]].flatten).getLastD 0),
       [], (([] : List ℚ) ++ [[1, 2]].flatten).getLastD 0) :=
  ⟨c10_underrun_holds_last_sample.1 [] [] 3 4 rfl,
   c10_underrun_holds_last_sample.2 [[1, 2]] [] 0 4 (by simp)⟩

end AudioRaycast
